import Mathlib

/-!
Verification of the FreqDemod demodulation engine (`freqdemod/demodulate.py`)
against its natural-language specification.  Each numeric transform of the
pipeline is shallowly embedded as a Lean definition translated from the
Python source; the claims are settled as theorems about those definitions.
Exact rational/real arithmetic replaces floating point throughout.
-/

namespace FreqDemod

/- ----------------------------------------------------------------------
Chunked Frequency Estimator (`Signal.fit_phase`, lines 1099-1148).

Within one chunk of `n` phase samples the code computes

    SX  = dt*0.50*(n-1)*n
    SXX = dt**2*(1/6.0)*n*(n-1)*(2*n-1)
    SY  = sum(y_sub_reset)          -- phase, origin-shifted per chunk
    SXY = sum(x_sub_reset*y_sub_reset)
    slope = (n*SXY - SX*SY)/(n*SXX - SX*SX)

where `x_sub_reset k = x k - x 0` and `y_sub_reset k = y k - y 0`.
---------------------------------------------------------------------- -/

/-- Closed-form time sum `SX = dt*0.50*(n_per_chunk-1)*(n_per_chunk)`. -/
def chunkSX (dt : ℚ) (n : ℕ) : ℚ := dt * (1/2) * ((n : ℚ) - 1) * (n : ℚ)

/-- Closed-form time sum `SXX = dt**2*(1/6.0)*n*(n-1)*(2*n-1)`. -/
def chunkSXX (dt : ℚ) (n : ℕ) : ℚ :=
dt ^ 2 * (1/6) * (n : ℚ) * ((n : ℚ) - 1) * (2 * (n : ℚ) - 1)

/-- Per-chunk phase sum `SY = np.sum(y_sub_reset)` over the origin-shifted phase. -/
def chunkSY (y : ℕ → ℚ) (n : ℕ) : ℚ := ∑ k ∈ Finset.range n, (y k - y 0)

/-- Per-chunk cross sum `SXY = np.sum(x_sub_reset*y_sub_reset)` over the
origin-shifted time and phase data. -/
def chunkSXY (x y : ℕ → ℚ) (n : ℕ) : ℚ :=
∑ k ∈ Finset.range n, ((x k - x 0) * (y k - y 0))

/-- The slope computed by `fit_phase`:
`slope = (n_per_chunk*SXY-SX*SY)/(n_per_chunk*SXX-SX*SX)`. -/
def chunkSlope (dt : ℚ) (x y : ℕ → ℚ) (n : ℕ) : ℚ :=
((n : ℚ) * chunkSXY x y n - chunkSX dt n * chunkSY y n) /
  ((n : ℚ) * chunkSXX dt n - chunkSX dt n * chunkSX dt n)

/-- Modelled from the spec: the ordinary least-squares line slope of the
chunk's phase versus (unshifted) time,
`(n*Sxy - Sx*Sy)/(n*Sxx - Sx^2)` with all four sums taken over the raw data. -/
def olsSlope (x y : ℕ → ℚ) (n : ℕ) : ℚ :=
((n : ℚ) * ∑ k ∈ Finset.range n, x k * y k -
    (∑ k ∈ Finset.range n, x k) * (∑ k ∈ Finset.range n, y k)) /
  ((n : ℚ) * ∑ k ∈ Finset.range n, (x k) ^ 2 -
    (∑ k ∈ Finset.range n, x k) ^ 2)

lemma sum_range_cast (n : ℕ) :
    ∑ k ∈ Finset.range n, (k : ℚ) = (n : ℚ) * ((n : ℚ) - 1) / 2 := by
  induction n with
  | zero => simp
  | succ m ih =>
    rw [Finset.sum_range_succ, ih]
    push_cast
    ring

lemma sum_range_sq_cast (n : ℕ) :
    ∑ k ∈ Finset.range n, (k : ℚ) ^ 2 =
      (n : ℚ) * ((n : ℚ) - 1) * (2 * (n : ℚ) - 1) / 6 := by
  induction n with
  | zero => simp
  | succ m ih =>
    rw [Finset.sum_range_succ, ih]
    push_cast
    ring

/-- C1: for every chunk of `n >= 2` phase samples at equally spaced times
`x k = x0 + k*dt`, the slope computed by `fit_phase` from the closed-form sums
`SX`, `SXX` and the per-chunk origin-shifted sums `SY`, `SXY` equals the
ordinary least-squares line slope of the chunk's phase versus time. -/
theorem C1_chunk_slope_eq_ols (n : ℕ) (dt x0 : ℚ) (x y : ℕ → ℚ)
    (hn : 2 ≤ n) (hdt : 0 < dt) (hx : ∀ k, x k = x0 + (k : ℚ) * dt) :
    chunkSlope dt x y n = olsSlope x y n := by
  have hx0 : x 0 = x0 := by simpa using hx 0
  have hxs : ∀ k, x k - x 0 = (k : ℚ) * dt := by
    intro k
    rw [hx k, hx0]
    ring
  have hSXY : chunkSXY x y n =
      dt * (∑ k ∈ Finset.range n, (k : ℚ) * y k) -
        dt * y 0 * (∑ k ∈ Finset.range n, (k : ℚ)) := by
    unfold chunkSXY
    rw [show (∑ k ∈ Finset.range n, ((x k - x 0) * (y k - y 0))) =
        ∑ k ∈ Finset.range n, (dt * ((k : ℚ) * y k) - dt * y 0 * (k : ℚ)) from
      Finset.sum_congr rfl (fun k _ => by rw [hxs k]; ring)]
    rw [Finset.sum_sub_distrib, ← Finset.mul_sum, ← Finset.mul_sum]
  have hSY : chunkSY y n = (∑ k ∈ Finset.range n, y k) - (n : ℚ) * y 0 := by
    unfold chunkSY
    rw [Finset.sum_sub_distrib, Finset.sum_const, Finset.card_range,
      nsmul_eq_mul]
  have hxy : (∑ k ∈ Finset.range n, x k * y k) =
      x0 * (∑ k ∈ Finset.range n, y k) +
        dt * (∑ k ∈ Finset.range n, (k : ℚ) * y k) := by
    rw [show (∑ k ∈ Finset.range n, x k * y k) =
        ∑ k ∈ Finset.range n, (x0 * y k + dt * ((k : ℚ) * y k)) from
      Finset.sum_congr rfl (fun k _ => by rw [hx k]; ring)]
    rw [Finset.sum_add_distrib, ← Finset.mul_sum, ← Finset.mul_sum]
  have hxsum : (∑ k ∈ Finset.range n, x k) =
      (n : ℚ) * x0 + dt * (∑ k ∈ Finset.range n, (k : ℚ)) := by
    rw [show (∑ k ∈ Finset.range n, x k) =
        ∑ k ∈ Finset.range n, (x0 + dt * (k : ℚ)) from
      Finset.sum_congr rfl (fun k _ => by rw [hx k]; ring)]
    rw [Finset.sum_add_distrib, ← Finset.mul_sum, Finset.sum_const,
      Finset.card_range, nsmul_eq_mul]
  have hx2 : (∑ k ∈ Finset.range n, (x k) ^ 2) =
      (n : ℚ) * x0 ^ 2 + 2 * x0 * dt * (∑ k ∈ Finset.range n, (k : ℚ)) +
        dt ^ 2 * (∑ k ∈ Finset.range n, (k : ℚ) ^ 2) := by
    rw [show (∑ k ∈ Finset.range n, (x k) ^ 2) =
        ∑ k ∈ Finset.range n,
          (x0 ^ 2 + 2 * x0 * dt * (k : ℚ) + dt ^ 2 * (k : ℚ) ^ 2) from
      Finset.sum_congr rfl (fun k _ => by rw [hx k]; ring)]
    rw [Finset.sum_add_distrib, Finset.sum_add_distrib, ← Finset.mul_sum,
      ← Finset.mul_sum, Finset.sum_const, Finset.card_range, nsmul_eq_mul]
  unfold chunkSlope olsSlope
  rw [hSXY, hSY, hxy, hxsum, hx2, sum_range_cast, sum_range_sq_cast]
  unfold chunkSX chunkSXX
  congr 1 <;> ring

/-- Witness for C1 at the concrete chunk `n = 2`, `dt = 1`, `x k = k`,
`y k = k`. -/
theorem C1_chunk_slope_eq_ols_witness :
    2 ≤ 2 ∧ (0 : ℚ) < 1 ∧
      chunkSlope 1 (fun k => (k : ℚ)) (fun k => (k : ℚ)) 2 =
        olsSlope (fun k => (k : ℚ)) (fun k => (k : ℚ)) 2 :=
  ⟨le_refl 2, by norm_num,
    C1_chunk_slope_eq_ols 2 1 0 (fun k => (k : ℚ)) (fun k => (k : ℚ))
      (le_refl 2) (by norm_num) (fun k => by push_cast; ring)⟩

/- ----------------------------------------------------------------------
Length Normalizer (`Signal.time_mask_binarate`, lines 459-481).

    n2 = int(math.pow(2,int(math.floor(math.log(n, 2)))))
    mode "middle": n_start = floor((n - n2)/2), n_stop = n_start + n2
    mode "start" : n_start = 0,                 n_stop = n2
    mode "end"   : n_start = n - n2,            n_stop = n
    mask = (indices >= n_start) & (indices < n_stop)

An unrecognized mode leaves `n_start` unbound (a NameError), modelled as
`none`.  The float expression `2**floor(log2 n)` is modelled exactly as
`2 ^ Nat.log2 n`.
---------------------------------------------------------------------- -/

/-- `n2`: the largest power of two that is `<= n` (for `n >= 1`). -/
def n2of (n : ℕ) : ℕ := 2 ^ Nat.log2 n

/-- The `(n_start, n_stop)` pair chosen by `time_mask_binarate`'s
string dispatch, in source order (`middle`, then `start`, then `end`). -/
def binarateBounds (n : ℕ) (mode : String) : Option (ℕ × ℕ) :=
if mode = "middle" then some ((n - n2of n) / 2, (n - n2of n) / 2 + n2of n)
else if mode = "start" then some (0, n2of n)
else if mode = "end" then some (n - n2of n, n)
else none

/-- The boolean mask `(indices >= n_start) & (indices < n_stop)`. -/
def time_mask_binarate (n : ℕ) (mode : String) : Option (List Bool) :=
(binarateBounds n mode).map
  (fun b => (List.range n).map (fun i => decide (b.1 ≤ i) && decide (i < b.2)))

/-- The run start index the claim ascribes to each mode. -/
def binarateStart (n : ℕ) (mode : String) : ℕ :=
if mode = "start" then 0
else if mode = "middle" then (n - n2of n) / 2
else n - n2of n

lemma n2of_le (n : ℕ) (hn : 1 ≤ n) : n2of n ≤ n := by
  have := Nat.log2_self_le (Nat.one_le_iff_ne_zero.mp hn)
  simpa [n2of] using this

lemma mask_run_eq (n s c : ℕ) (h : s + c ≤ n) :
    (List.range n).map (fun i => decide (s ≤ i) && decide (i < s + c)) =
      List.replicate s false ++ List.replicate c true ++
        List.replicate (n - (s + c)) false := by
  apply List.ext_getElem
  · simp
    omega
  · intro i h1 h2
    simp only [List.getElem_map, List.getElem_range]
    by_cases hi1 : i < s
    · rw [List.getElem_append_left (by simp; omega),
        List.getElem_append_left (by simpa using hi1)]
      simp [Nat.not_le.mpr hi1]
    · by_cases hi2 : i < s + c
      · rw [List.getElem_append_left (by simp; omega),
          List.getElem_append_right (by simpa using hi1)]
        simp [Nat.not_lt.mp hi1, hi2]
      · rw [List.getElem_append_right (by simp; omega)]
        simp [hi2]

/-- C2: for every `n >= 1` and mode in start/middle/end, the binarate mask
has length `n` and is a single contiguous run of `2 ^ floor(log2 n)` `true`
entries starting at index 0 (start), `floor((n-n2)/2)` (middle), or `n-n2`
(end), with every other entry `false`. -/
theorem C2_binarate_mask (n : ℕ) (mode : String) (hn : 1 ≤ n)
    (hm : mode = "start" ∨ mode = "middle" ∨ mode = "end") :
    ∃ msk, time_mask_binarate n mode = some msk ∧
      msk = List.replicate (binarateStart n mode) false ++
        List.replicate (n2of n) true ++
        List.replicate (n - (binarateStart n mode + n2of n)) false ∧
      msk.length = n ∧ msk.count true = n2of n := by
  have h2 : n2of n ≤ n := n2of_le n hn
  have hbound : binarateStart n mode + n2of n ≤ n := by
    rcases hm with h | h | h <;> subst h <;> simp [binarateStart] <;> omega
  have hstop : binarateBounds n mode =
      some (binarateStart n mode, binarateStart n mode + n2of n) := by
    rcases hm with h | h | h <;> subst h <;>
      simp [binarateBounds, binarateStart] <;> omega
  have hmask : time_mask_binarate n mode =
      some (List.replicate (binarateStart n mode) false ++
        List.replicate (n2of n) true ++
        List.replicate (n - (binarateStart n mode + n2of n)) false) := by
    rw [time_mask_binarate, hstop, Option.map_some']
    exact congrArg some (mask_run_eq n _ _ hbound)
  refine ⟨_, hmask, rfl, ?_, ?_⟩
  · simp
    omega
  · simp [List.count_append, List.count_replicate]

/-- Witness for C2 at `n = 5`, mode `"middle"`: the mask is
`[false, false, true, true, true]`... (here `n2 = 4`, start `0`). -/
theorem C2_binarate_mask_witness :
    1 ≤ 5 ∧ ("middle" = "start" ∨ "middle" = "middle" ∨ "middle" = "end") ∧
      ∃ msk, time_mask_binarate 5 "middle" = some msk ∧
        msk = List.replicate (binarateStart 5 "middle") false ++
          List.replicate (n2of 5) true ++
          List.replicate (5 - (binarateStart 5 "middle" + n2of 5)) false ∧
        msk.length = 5 ∧ msk.count true = n2of 5 :=
  ⟨by norm_num, Or.inr (Or.inl rfl),
    C2_binarate_mask 5 "middle" (by norm_num) (Or.inr (Or.inl rfl))⟩

/- ----------------------------------------------------------------------
Spectral Transform, power mode (`Signal.fft` with `psd=True`, lines 625-651).

    freq = np.fft.fftshift(np.fft.fftfreq(s.size, dt))
    sFT  = (dt / len(s)) * np.power(abs(np.fft.fftshift(np.fft.fft(s))), 2.0)
    mask = freq >= 0
    freq = freq[mask]; sFT = sFT[mask]

`np.fft.fftfreq(m, d)` is `[0, 1, ..., ceil(m/2)-1, -floor(m/2), ..., -1]/(m*d)`
and `np.fft.fftshift` rotates the array left by `ceil(m/2)` positions.  The
FFT magnitudes `abs(np.fft.fft(s))` are kept abstract as a function
`A : ℕ → ℝ` (bin index to magnitude); the claim holds for every spectrum.
---------------------------------------------------------------------- -/

/-- `np.fft.fftfreq(m, dt)` at bin `k`. -/
def fftfreqVal (m : ℕ) (dt : ℚ) (k : ℕ) : ℚ :=
if k < (m + 1) / 2 then (k : ℚ) / ((m : ℚ) * dt)
else ((k : ℚ) - (m : ℚ)) / ((m : ℚ) * dt)

/-- The full `np.fft.fftfreq(m, dt)` array. -/
def fftfreqList (m : ℕ) (dt : ℚ) : List ℚ :=
(List.range m).map (fftfreqVal m dt)

/-- `np.fft.fftshift`: rotate left by `ceil(length/2)` so that the
negative-frequency half comes first. -/
def fftshiftList {α : Type} (l : List α) : List α :=
l.drop ((l.length + 1) / 2) ++ l.take ((l.length + 1) / 2)

/-- `(dt/len(s)) * abs(fftshift(fft(s)))**2`: the shifted, scaled power
spectrum, with `A k` the magnitude `abs(fft(s))[k]` of bin `k`. -/
noncomputable def psdShiftedVals (m : ℕ) (dt : ℚ) (A : ℕ → ℝ) : List ℝ :=
(fftshiftList ((List.range m).map A)).map
  (fun a => ((dt : ℝ) / (m : ℝ)) * a ^ 2)

/-- The power-mode output values: the shifted, scaled power spectrum kept
only where the co-indexed shifted frequency axis is `>= 0`. -/
noncomputable def psdVals (m : ℕ) (dt : ℚ) (A : ℕ → ℝ) : List ℝ :=
(((fftshiftList (fftfreqList m dt)).zip (psdShiftedVals m dt A)).filter
  (fun p => decide (0 ≤ p.1))).map (fun p => p.2)

/-- The power-mode frequency axis: `freq[freq >= 0]` (in Hz). -/
def psdFreqs (m : ℕ) (dt : ℚ) : List ℚ :=
(fftshiftList (fftfreqList m dt)).filter (fun f => decide (0 ≤ f))

lemma drop_range (n i : ℕ) :
    (List.range n).drop i = List.range' i (n - i) := by
  apply List.ext_getElem
  · simp
  · intro j h1 h2
    rw [List.getElem_drop, List.getElem_range, List.getElem_range']
    omega

lemma fftshift_map_range {α : Type} (m : ℕ) (f : ℕ → α) :
    fftshiftList ((List.range m).map f) =
      (List.range' ((m + 1) / 2) (m - (m + 1) / 2)).map f ++
        (List.range ((m + 1) / 2)).map f := by
  unfold fftshiftList
  rw [List.length_map, List.length_range, ← List.map_drop, ← List.map_take,
    drop_range, List.take_range]
  congr 3
  omega

lemma fftfreqVal_nonneg (m : ℕ) (dt : ℚ) (hdt : 0 < dt) (k : ℕ)
    (hk : k < (m + 1) / 2) : 0 ≤ fftfreqVal m dt k := by
  unfold fftfreqVal
  rw [if_pos hk]
  positivity

lemma fftfreqVal_neg (m : ℕ) (dt : ℚ) (hdt : 0 < dt) (k : ℕ)
    (hk1 : (m + 1) / 2 ≤ k) (hk2 : k < m) : fftfreqVal m dt k < 0 := by
  unfold fftfreqVal
  rw [if_neg (by omega)]
  apply div_neg_of_neg_of_pos
  · have hkm : (k : ℚ) < (m : ℚ) := by exact_mod_cast hk2
    linarith
  · have hmpos : 0 < m := by omega
    have hm0 : (0 : ℚ) < (m : ℚ) := by exact_mod_cast hmpos
    exact mul_pos hm0 hdt

/-- C3: in power mode the Spectral Transform outputs exactly
`(dt/m)*|FFT(s)[k]|^2` for the bins `k` whose frequency is nonnegative
(namely `k < ceil(m/2)`, in ascending frequency order), with no
factor-of-two correction applied to any entry, and the retained frequency
axis is `k/(m*dt)` over those same bins. -/
theorem C3_psd_single_sided (m : ℕ) (dt : ℚ) (A : ℕ → ℝ)
    (hm : 1 ≤ m) (hdt : 0 < dt) :
    psdVals m dt A =
      (List.range ((m + 1) / 2)).map
        (fun k => ((dt : ℝ) / (m : ℝ)) * (A k) ^ 2) ∧
    psdFreqs m dt =
      (List.range ((m + 1) / 2)).map (fun k : ℕ => (k : ℚ) / ((m : ℚ) * dt)) ∧
    ∀ k, k < m → (0 ≤ fftfreqVal m dt k ↔ k < (m + 1) / 2) := by
  have hneg : ∀ k ∈ List.range' ((m + 1) / 2) (m - (m + 1) / 2),
      ¬ (0 ≤ fftfreqVal m dt k) := by
    intro k hk
    rw [List.mem_range'_1] at hk
    exact not_le.mpr (fftfreqVal_neg m dt hdt k hk.1 (by omega))
  have hpos : ∀ k ∈ List.range ((m + 1) / 2), 0 ≤ fftfreqVal m dt k := by
    intro k hk
    exact fftfreqVal_nonneg m dt hdt k (List.mem_range.mp hk)
  refine ⟨?_, ?_, ?_⟩
  · unfold psdVals psdShiftedVals fftfreqList
    rw [fftshift_map_range m (fftfreqVal m dt), fftshift_map_range m A,
      List.map_append, List.map_map, List.map_map,
      List.zip_append (by simp), List.zip_map', List.zip_map',
      List.filter_append]
    rw [List.filter_eq_nil_iff.mpr (by
      intro p hp
      simp only [List.mem_map] at hp
      obtain ⟨k, hk, hpk⟩ := hp
      simp [← hpk, hneg k hk])]
    rw [List.filter_eq_self.mpr (by
      intro p hp
      simp only [List.mem_map] at hp
      obtain ⟨k, hk, hpk⟩ := hp
      simp [← hpk, hpos k hk])]
    rw [List.nil_append, List.map_map]
    rfl
  · unfold psdFreqs fftfreqList
    rw [fftshift_map_range m (fftfreqVal m dt), List.filter_append]
    rw [List.filter_eq_nil_iff.mpr (by
      intro f hf
      simp only [List.mem_map] at hf
      obtain ⟨k, hk, hfk⟩ := hf
      simp [← hfk, hneg k hk])]
    rw [List.filter_eq_self.mpr (by
      intro f hf
      simp only [List.mem_map] at hf
      obtain ⟨k, hk, hfk⟩ := hf
      simp [← hfk, hpos k (by simpa using hk)])]
    rw [List.nil_append]
    apply List.map_congr_left
    intro k hk
    unfold fftfreqVal
    rw [if_pos (List.mem_range.mp hk)]
  · intro k hk
    constructor
    · intro h0
      by_contra hge
      exact absurd h0
        (not_le.mpr (fftfreqVal_neg m dt hdt k (by omega) hk))
    · exact fftfreqVal_nonneg m dt hdt k

/-- Witness for C3 at `m = 4`, `dt = 1`, `A k = k`. -/
theorem C3_psd_single_sided_witness :
    1 ≤ 4 ∧ (0 : ℚ) < 1 ∧
      (psdVals 4 1 (fun k => (k : ℝ)) =
        (List.range ((4 + 1) / 2)).map
          (fun k => (((1 : ℚ) : ℝ) / ((4 : ℕ) : ℝ)) * ((k : ℝ)) ^ 2) ∧
      psdFreqs 4 1 =
        (List.range ((4 + 1) / 2)).map
          (fun k : ℕ => (k : ℚ) / (((4 : ℕ) : ℚ) * 1)) ∧
      ∀ k, k < 4 → (0 ≤ fftfreqVal 4 1 k ↔ k < (4 + 1) / 2)) :=
  ⟨by norm_num, by norm_num,
    C3_psd_single_sided 4 1 (fun k => (k : ℝ)) (by norm_num) (by norm_num)⟩

/- ----------------------------------------------------------------------
Analytic Filter Bank (`Signal.freq_filter_Hilbert_complex`, lines 713-714,
and `Signal.freq_filter_bp`, lines 785-816).

    filt = 0.0*(freq < 0) + 1.0*(freq == 0) + 2.0*(freq > 0)

    FTrh = Hc*abs(FT); fc = freq[np.argmax(FTrh)]
    freq_scaled = (freq - fc)/bw
    brick wall: bp = 1.0/(1.0+np.power(abs(freq_scaled),order))
    cosine    : bp = zeros; in-band indices get np.sin(np.linspace(0,pi,N))
    gaussian  : bp = np.exp(-1 * np.power(freq_scaled, 2.0))
    otherwise : print("**ERROR**: Unrecognized filter function"); the later
                use of the unbound name `bp` raises NameError, so no filter
                is stored -- modelled as `Except.error`.

The frequency axis and the FT magnitudes `abs(FT)` are data; they are
modelled as rational lists (`freqs`, `mags`).
---------------------------------------------------------------------- -/

/-- The Hilbert filter weight `0.0*(f < 0) + 1.0*(f == 0) + 2.0*(f > 0)`. -/
def hilbertWeight (f : ℚ) : ℚ := if f < 0 then 0 else if f = 0 then 1 else 2

/-- `np.argmax`: index of the first occurrence of the maximum
(auxiliary recursion over the tail). -/
def argmaxGo : List ℚ → ℕ → ℕ → ℚ → ℕ
  | [], _, bi, _ => bi
  | v :: vs, i, bi, bv =>
    if bv < v then argmaxGo vs (i + 1) i v else argmaxGo vs (i + 1) bi bv

/-- `np.argmax` over a list (0 on the empty list, where numpy raises). -/
def argmaxIdx : List ℚ → ℕ
  | [] => 0
  | v :: vs => argmaxGo vs 1 0 v

/-- The auto-detected center frequency `fc = freq[np.argmax(Hc*abs(FT))]`. -/
def bpCenterFreq (freqs mags : List ℚ) : ℚ :=
freqs.getD (argmaxIdx (List.zipWith (fun f a => hilbertWeight f * a) freqs mags)) 0

/-- Brick-wall bandpass weights `1.0/(1.0+np.power(abs((f-fc)/bw),order))`. -/
def bpBrick (freqs : List ℚ) (fc bw : ℚ) (order : ℕ) : List ℚ :=
freqs.map (fun f => 1 / (1 + |(f - fc) / bw| ^ order))

/-- Gaussian bandpass weights `np.exp(-1 * np.power((f-fc)/bw, 2.0))`. -/
noncomputable def bpGauss (freqs : List ℚ) (fc bw : ℚ) : List ℝ :=
freqs.map (fun f => Real.exp (-(((f - fc) / bw : ℚ) : ℝ) ^ 2))

/-- `np.linspace(0, pi, N)` at position `j`. -/
noncomputable def linspaceVal (N j : ℕ) : ℝ :=
if N ≤ 1 then 0 else (j : ℝ) * Real.pi / ((N : ℝ) - 1)

/-- Membership test for the cosine filter's in-band index range
`(freq >= -1.0*bw + fc) & (freq <= bw + fc)`. -/
def cosineInBand (fc bw f : ℚ) : Bool :=
decide (-1 * bw + fc ≤ f) && decide (f ≤ bw + fc)

/-- Cosine bandpass weights: zero outside the band; the in-band indices
receive `np.sin(np.linspace(0, pi, N))` in order, `N` being the number of
in-band axis points. -/
noncomputable def bpCosine (freqs : List ℚ) (fc bw : ℚ) : List ℝ :=
(List.range freqs.length).map (fun i =>
  if cosineInBand fc bw (freqs.getD i 0) then
    Real.sin (linspaceVal ((freqs.filter (cosineInBand fc bw)).length)
      ((freqs.take i).countP (cosineInBand fc bw)))
  else 0)

/-- `Signal.freq_filter_bp`: string dispatch on the filter style; an
unrecognized style prints an error and leaves `bp` unbound (NameError), so
nothing is stored. -/
noncomputable def freq_filter_bp (freqs mags : List ℚ) (bw : ℚ) (order : ℕ)
    (style : String) : Except String (List ℝ) :=
if style = "brick wall" then
  Except.ok ((bpBrick freqs (bpCenterFreq freqs mags) bw order).map
    (fun q => (q : ℝ)))
else if style = "cosine" then
  Except.ok (bpCosine freqs (bpCenterFreq freqs mags) bw)
else if style = "gaussian" then
  Except.ok (bpGauss freqs (bpCenterFreq freqs mags) bw)
else Except.error "**ERROR**: Unrecognized filter function"

lemma argmaxGo_cases (l : List ℚ) :
    ∀ i bi bv, argmaxGo l i bi bv = bi ∨ argmaxGo l i bi bv < i + l.length := by
  induction l with
  | nil => intro i bi bv; left; rfl
  | cons v vs ih =>
    intro i bi bv
    by_cases hv : bv < v
    · rcases ih (i + 1) i v with h | h
      · right
        rw [argmaxGo, if_pos hv, h]
        simp
      · right
        rw [argmaxGo, if_pos hv]
        simp only [List.length_cons]
        omega
    · rcases ih (i + 1) bi bv with h | h
      · left
        rw [argmaxGo, if_neg hv, h]
      · right
        rw [argmaxGo, if_neg hv]
        simp only [List.length_cons]
        omega

lemma argmaxIdx_lt_length (l : List ℚ) (hl : l ≠ []) :
    argmaxIdx l < l.length := by
  cases l with
  | nil => exact absurd rfl hl
  | cons v vs =>
    rw [argmaxIdx]
    rcases argmaxGo_cases vs 1 0 v with h | h
    · rw [h]
      simp
    · simp only [List.length_cons]
      omega

lemma bpCenterFreq_mem (freqs mags : List ℚ) (hne : freqs ≠ [])
    (hlen : mags.length = freqs.length) : bpCenterFreq freqs mags ∈ freqs := by
  unfold bpCenterFreq
  have hzlen : (List.zipWith (fun f a => hilbertWeight f * a) freqs mags).length
      = freqs.length := by
    rw [List.length_zipWith, hlen, Nat.min_self]
  have hz : List.zipWith (fun f a => hilbertWeight f * a) freqs mags ≠ [] := by
    intro h
    apply hne
    have := congrArg List.length h
    rw [hzlen] at this
    exact List.length_eq_zero.mp this
  have hidx := argmaxIdx_lt_length _ hz
  rw [hzlen] at hidx
  rw [List.getD_eq_getElem _ _ hidx]
  exact List.getElem_mem hidx

/-- C4 counterexample: with `order = 0` (an integer the claim's
quantification admits) the brick-wall weight at the detected center
frequency is `1/(1+|0|^0) = 1/2`, not `1`: axis `[1]`, magnitudes `[1]`,
`bw = 1`, `order = 0`. -/
theorem C4_brick_order_zero_cex :
    bpCenterFreq [1] [1] = 1 ∧
      (bpBrick [1] (bpCenterFreq [1] [1]) 1 0).getD 0 0 = 1/2 ∧
      (bpBrick [1] (bpCenterFreq [1] [1]) 1 0).getD 0 0 ≠ 1 := by
  have hfc : bpCenterFreq [1] [1] = 1 := by
    norm_num [bpCenterFreq, argmaxIdx, argmaxGo, hilbertWeight]
  refine ⟨hfc, ?_, ?_⟩
  · rw [hfc]
    norm_num [bpBrick, List.getD]
  · rw [hfc]
    norm_num [bpBrick, List.getD]

/-- C4 (amended: the brick-wall clause additionally requires
`order >= 1`, forced by `|0|^0 = 1`): for every bandpass filter with
`bw > 0` over an axis containing the auto-detected `fc`, the brick-wall
weight at `fc` is 1 (for `order >= 1`), the gaussian weight at `fc` is 1
and at axis points `fc + bw` or `fc - bw` is `exp(-1)`, and the cosine
weight is 0 at every axis point outside `[fc - bw, fc + bw]`. -/
theorem C4_bandpass_weights (freqs mags : List ℚ) (bw fc : ℚ) (order : ℕ)
    (hne : freqs ≠ []) (hlen : mags.length = freqs.length)
    (hbw : 0 < bw) (hord : 1 ≤ order)
    (hfc : fc = bpCenterFreq freqs mags) :
    fc ∈ freqs ∧
    (∀ i, i < freqs.length → freqs.getD i 0 = fc →
      (bpBrick freqs fc bw order).getD i 0 = 1) ∧
    (∀ i, i < freqs.length → freqs.getD i 0 = fc →
      (bpGauss freqs fc bw).getD i 0 = 1) ∧
    (∀ i, i < freqs.length →
      (freqs.getD i 0 = fc + bw ∨ freqs.getD i 0 = fc - bw) →
      (bpGauss freqs fc bw).getD i 0 = Real.exp (-1)) ∧
    (∀ i, i < freqs.length →
      (freqs.getD i 0 < fc - bw ∨ fc + bw < freqs.getD i 0) →
      (bpCosine freqs fc bw).getD i 0 = 0) := by
  refine ⟨hfc ▸ bpCenterFreq_mem freqs mags hne hlen, ?_, ?_, ?_, ?_⟩
  · intro i hi hf
    rw [List.getD_eq_getElem _ _ hi] at hf
    rw [bpBrick, List.getD_eq_getElem _ _ (by simpa using hi),
      List.getElem_map, hf]
    rw [show (fc - fc) / bw = 0 by ring]
    rw [abs_zero, zero_pow (by omega)]
    norm_num
  · intro i hi hf
    rw [List.getD_eq_getElem _ _ hi] at hf
    rw [bpGauss, List.getD_eq_getElem _ _ (by simpa using hi),
      List.getElem_map, hf]
    rw [show (fc - fc) / bw = 0 by ring]
    simp
  · intro i hi hf
    rw [List.getD_eq_getElem _ _ hi] at hf
    rw [bpGauss, List.getD_eq_getElem _ _ (by simpa using hi),
      List.getElem_map]
    have hbw0 : bw ≠ 0 := ne_of_gt hbw
    rcases hf with hf | hf
    · rw [hf, show (fc + bw - fc) / bw = 1 by field_simp]
      norm_num
    · rw [hf, show (fc - bw - fc) / bw = -1 by
        rw [div_eq_iff hbw0]; ring]
      norm_num
  · intro i hi hf
    have hgd : freqs.getD i 0 = freqs[i] := List.getD_eq_getElem _ _ hi
    rw [hgd] at hf
    rw [bpCosine, List.getD_eq_getElem _ _ (by simpa using hi),
      List.getElem_map, List.getElem_range, hgd]
    have hband : cosineInBand fc bw freqs[i] = false := by
      rw [cosineInBand, Bool.and_eq_false_iff]
      rcases hf with hf | hf
      · left
        simp only [decide_eq_false_iff_not, not_le]
        linarith
      · right
        simp only [decide_eq_false_iff_not, not_le]
        linarith
    rw [if_neg (by simp [hband])]

/-- Witness for (amended) C4 on the axis `[1, 2]` with magnitudes `[0, 1]`
(detected `fc = 2`), `bw = 1`, `order = 1`. -/
theorem C4_bandpass_weights_witness :
    ([1, 2] : List ℚ) ≠ [] ∧
    ([0, 1] : List ℚ).length = ([1, 2] : List ℚ).length ∧
    (0 : ℚ) < 1 ∧ 1 ≤ 1 ∧ (2 : ℚ) = bpCenterFreq [1, 2] [0, 1] ∧
    ((2 : ℚ) ∈ ([1, 2] : List ℚ) ∧
    (∀ i, i < ([1, 2] : List ℚ).length → ([1, 2] : List ℚ).getD i 0 = 2 →
      (bpBrick [1, 2] 2 1 1).getD i 0 = 1) ∧
    (∀ i, i < ([1, 2] : List ℚ).length → ([1, 2] : List ℚ).getD i 0 = 2 →
      (bpGauss [1, 2] 2 1).getD i 0 = 1) ∧
    (∀ i, i < ([1, 2] : List ℚ).length →
      (([1, 2] : List ℚ).getD i 0 = 2 + 1 ∨ ([1, 2] : List ℚ).getD i 0 = 2 - 1) →
      (bpGauss [1, 2] 2 1).getD i 0 = Real.exp (-1)) ∧
    (∀ i, i < ([1, 2] : List ℚ).length →
      (([1, 2] : List ℚ).getD i 0 < 2 - 1 ∨ 2 + 1 < ([1, 2] : List ℚ).getD i 0) →
      (bpCosine [1, 2] 2 1).getD i 0 = 0)) :=
  ⟨by decide, rfl, by norm_num, le_refl 1,
    by norm_num [bpCenterFreq, argmaxIdx, argmaxGo, hilbertWeight],
    C4_bandpass_weights [1, 2] [0, 1] 1 2 1 (by decide) rfl (by norm_num)
      (le_refl 1)
      (by norm_num [bpCenterFreq, argmaxIdx, argmaxGo, hilbertWeight])⟩

/-- C7: every bandpass filter request whose style is none of brick wall,
cosine, gaussian fails with the explicit usage error and produces no
filter (no silent fallback). -/
theorem C7_unrecognized_style (freqs mags : List ℚ) (bw : ℚ) (order : ℕ)
    (style : String) (h1 : style ≠ "brick wall") (h2 : style ≠ "cosine")
    (h3 : style ≠ "gaussian") :
    freq_filter_bp freqs mags bw order style =
      Except.error "**ERROR**: Unrecognized filter function" := by
  unfold freq_filter_bp
  rw [if_neg h1, if_neg h2, if_neg h3]

/-- Witness for C7 with the unrecognized style `"hamming"`. -/
theorem C7_unrecognized_style_witness :
    ("hamming" ≠ "brick wall") ∧ ("hamming" ≠ "cosine") ∧
    ("hamming" ≠ "gaussian") ∧
    freq_filter_bp [] [] 1 50 "hamming" =
      Except.error "**ERROR**: Unrecognized filter function" :=
  ⟨by decide, by decide, by decide,
    C7_unrecognized_style [] [] 1 50 "hamming" (by decide) (by decide)
      (by decide)⟩

/- ----------------------------------------------------------------------
Taper Builder (`Signal.time_window_cyclicize`, lines 564-570).

    ww = int(math.ceil((1.0*tw)/(1.0*dt)))
    w = np.concatenate([np.blackman(2*ww)[0:ww],
                        np.ones(n-2*ww),
                        np.blackman(2*ww)[-ww:]])

`np.ones(n-2*ww)` raises ValueError exactly when `n - 2*ww < 0` (Python
int arithmetic), modelled as `none`; at `n = 2*ww` it happily returns the
empty plateau.  `np.blackman(M)` is
`0.42 - 0.5*cos(2*pi*k/(M-1)) + 0.08*cos(4*pi*k/(M-1))` for `k < M`
(`[1.0]` when `M = 1`, empty when `M < 1`).
---------------------------------------------------------------------- -/

/-- `np.blackman(M)` entry `k`. -/
noncomputable def blackmanVal (M k : ℕ) : ℝ :=
0.42 - 0.5 * Real.cos (2 * Real.pi * (k : ℝ) / ((M : ℝ) - 1)) +
  0.08 * Real.cos (4 * Real.pi * (k : ℝ) / ((M : ℝ) - 1))

/-- The full `np.blackman(M)` array. -/
noncomputable def blackmanList (M : ℕ) : List ℝ :=
if M = 1 then [1] else (List.range M).map (blackmanVal M)

/-- `Signal.time_window_cyclicize` on working length `n` with window
half-width `ww` points: `none` models the `np.ones(n-2*ww)` ValueError. -/
noncomputable def time_window_cyclicize (n ww : ℕ) : Option (List ℝ) :=
if (n : ℤ) - 2 * (ww : ℤ) < 0 then none
else some ((blackmanList (2 * ww)).take ww ++
  List.replicate (n - 2 * ww) 1 ++ (blackmanList (2 * ww)).drop ww)

/-- C5 counterexample: `tw = 1`, `dt = 1`, `m = 2` gives `ww = 1` with
`2*ww >= m`, yet the Taper Builder succeeds, silently returning the
plateau-free full Blackman window. -/
theorem C5_equal_width_cex :
    ((⌈(1 : ℚ) / 1⌉).toNat = 1) ∧ 2 * 1 ≥ 2 ∧
      time_window_cyclicize 2 ((⌈(1 : ℚ) / 1⌉).toNat) ≠ none := by
  have h1 : (⌈(1 : ℚ) / 1⌉).toNat = 1 := by norm_num
  refine ⟨h1, by norm_num, ?_⟩
  rw [h1, time_window_cyclicize, if_neg (by norm_num)]
  simp

/-- C5 (amended: the Taper Builder fails exactly when `2*ww > m`, i.e. the
strict inequality; at `2*ww = m` it silently returns a plateau-free window):
with `ww = ceil(tw/dt)` the build fails iff `m < 2*ww`. -/
theorem C5_taper_fail_iff (n ww : ℕ) (tw dt : ℚ) (hdt : 0 < dt)
    (htw : 0 ≤ tw) (hww : ww = (⌈tw / dt⌉).toNat) :
    (time_window_cyclicize n ww = none ↔ (n : ℤ) < 2 * (ww : ℤ)) := by
  unfold time_window_cyclicize
  split_ifs with h
  · exact iff_of_true rfl (by omega)
  · constructor
    · intro hc
      exact absurd hc (by trivial)
    · intro hc
      omega

/-- Witness for (amended) C5 at `n = 2`, `tw = 3`, `dt = 1` (`ww = 3`). -/
theorem C5_taper_fail_iff_witness :
    (0 : ℚ) < 1 ∧ (0 : ℚ) ≤ 3 ∧ (3 : ℕ) = (⌈(3 : ℚ) / 1⌉).toNat ∧
      (time_window_cyclicize 2 3 = none ↔ (2 : ℤ) < 2 * ((3 : ℕ) : ℤ)) :=
  ⟨by norm_num, by norm_num, by norm_num; rfl,
    C5_taper_fail_iff 2 3 3 1 (by norm_num) (by norm_num) (by norm_num; rfl)⟩

lemma blackmanVal_bounds (M k : ℕ) :
    0 ≤ blackmanVal M k ∧ blackmanVal M k ≤ 1 := by
  unfold blackmanVal
  set c := Real.cos (2 * Real.pi * (k : ℝ) / ((M : ℝ) - 1)) with hc
  have hc1 : -1 ≤ c := Real.neg_one_le_cos _
  have hc2 : c ≤ 1 := Real.cos_le_one _
  have hdouble : Real.cos (4 * Real.pi * (k : ℝ) / ((M : ℝ) - 1)) =
      2 * c ^ 2 - 1 := by
    rw [show 4 * Real.pi * (k : ℝ) / ((M : ℝ) - 1) =
      2 * (2 * Real.pi * (k : ℝ) / ((M : ℝ) - 1)) by ring]
    rw [Real.cos_two_mul]
  rw [hdouble]
  constructor
  · have h1 : 0 ≤ (1 - c) * (17/8 - c) :=
      mul_nonneg (by linarith) (by linarith)
    nlinarith
  · have h2 : 0 ≤ (c + 1) * (33/8 - c) :=
      mul_nonneg (by linarith) (by linarith)
    nlinarith

lemma blackmanVal_symm (M k : ℕ) (hk : k < M) :
    blackmanVal M (M - 1 - k) = blackmanVal M k := by
  have h1 : 1 ≤ M := by omega
  have hcast : ((M - 1 - k : ℕ) : ℝ) = (M : ℝ) - 1 - (k : ℝ) := by
    rw [Nat.cast_sub (by omega : k ≤ M - 1), Nat.cast_sub h1]
    norm_num
  unfold blackmanVal
  rw [hcast]
  by_cases hM : (M : ℝ) - 1 = 0
  · have hMeq : M = 1 := by
      have hM1 : (M : ℝ) = 1 := by linarith
      exact_mod_cast hM1
    subst hMeq
    have hk0 : k = 0 := by omega
    subst hk0
    norm_num [Real.cos_zero]
  · have e1 : 2 * Real.pi * ((M : ℝ) - 1 - (k : ℝ)) / ((M : ℝ) - 1) =
        2 * Real.pi - 2 * Real.pi * (k : ℝ) / ((M : ℝ) - 1) := by
      field_simp
      ring
    have e2 : 4 * Real.pi * ((M : ℝ) - 1 - (k : ℝ)) / ((M : ℝ) - 1) =
        -((4 * Real.pi * (k : ℝ) / ((M : ℝ) - 1) - 2 * Real.pi) -
          2 * Real.pi) := by
      field_simp
      ring
    rw [e1, Real.cos_two_pi_sub, e2, Real.cos_neg, Real.cos_sub_two_pi,
      Real.cos_sub_two_pi]

lemma blackmanList_two_mul (ww : ℕ) :
    blackmanList (2 * ww) = (List.range (2 * ww)).map (blackmanVal (2 * ww)) := by
  rw [blackmanList, if_neg (by omega)]

lemma rise_eq (ww : ℕ) :
    (blackmanList (2 * ww)).take ww =
      (List.range ww).map (blackmanVal (2 * ww)) := by
  rw [blackmanList_two_mul, ← List.map_take, List.take_range]
  congr 2
  omega

lemma fall_eq (ww : ℕ) :
    (blackmanList (2 * ww)).drop ww =
      (List.range' ww ww).map (blackmanVal (2 * ww)) := by
  rw [blackmanList_two_mul, ← List.map_drop, drop_range]
  congr 2
  omega

lemma fall_reverse (ww : ℕ) :
    ((List.range' ww ww).map (blackmanVal (2 * ww))).reverse =
      (List.range ww).map (blackmanVal (2 * ww)) := by
  apply List.ext_getElem
  · simp
  · intro i h1 h2
    have hi : i < ww := by simpa using h2
    rw [List.getElem_reverse]
    simp only [List.getElem_map, List.getElem_range, List.getElem_range',
      List.length_map, List.length_range']
    rw [show ww + 1 * (ww - 1 - i) = 2 * ww - 1 - i by omega]
    exact blackmanVal_symm (2 * ww) i (by omega)

lemma getD_reverse (l : List ℝ) (i : ℕ) (h : i < l.length) :
    l.reverse.getD i 0 = l.getD (l.length - 1 - i) 0 := by
  rw [List.getD_eq_getElem _ _ (by simpa using h),
    List.getD_eq_getElem _ _ (by omega), List.getElem_reverse]

lemma rise_reverse (ww : ℕ) :
    ((List.range ww).map (blackmanVal (2 * ww))).reverse =
      (List.range' ww ww).map (blackmanVal (2 * ww)) := by
  rw [← fall_reverse ww, List.reverse_reverse]

/-- C6: when `2*ww < m` (with `ww = ceil(tw/dt)`), the taper has length
exactly `m`, every weight lies in `[0, 1]`, and the array is symmetric:
`weights[i] = weights[m-1-i]` for every index `i`. -/
theorem C6_taper_shape (n ww : ℕ) (tw dt : ℚ) (hdt : 0 < dt) (htw : 0 ≤ tw)
    (hww : ww = (⌈tw / dt⌉).toNat) (h2 : 2 * ww < n) :
    ∃ w, time_window_cyclicize n ww = some w ∧ w.length = n ∧
      (∀ i, i < n → 0 ≤ w.getD i 0 ∧ w.getD i 0 ≤ 1) ∧
      (∀ i, i < n → w.getD i 0 = w.getD (n - 1 - i) 0) := by
  have hsome : time_window_cyclicize n ww =
      some ((blackmanList (2 * ww)).take ww ++
        List.replicate (n - 2 * ww) 1 ++ (blackmanList (2 * ww)).drop ww) := by
    rw [time_window_cyclicize, if_neg (by omega)]
  set w := (blackmanList (2 * ww)).take ww ++
    List.replicate (n - 2 * ww) 1 ++ (blackmanList (2 * ww)).drop ww with hwdef
  have hlen : w.length = n := by
    rw [hwdef, rise_eq, fall_eq]
    simp
    omega
  have hmem : ∀ a ∈ w, 0 ≤ a ∧ a ≤ 1 := by
    intro a ha
    rw [hwdef, rise_eq, fall_eq] at ha
    rcases List.mem_append.mp ha with ha | ha
    · rcases List.mem_append.mp ha with ha | ha
      · obtain ⟨k, _, hBk⟩ := List.mem_map.mp ha
        exact hBk ▸ blackmanVal_bounds (2 * ww) k
      · rw [List.eq_of_mem_replicate ha]
        norm_num
    · obtain ⟨k, _, hBk⟩ := List.mem_map.mp ha
      exact hBk ▸ blackmanVal_bounds (2 * ww) k
  have hrev : w.reverse = w := by
    rw [hwdef, rise_eq, fall_eq, List.reverse_append, List.reverse_append,
      List.reverse_replicate, fall_reverse, rise_reverse,
      ← List.append_assoc]
  refine ⟨w, hsome, hlen, ?_, ?_⟩
  · intro i hi
    rw [List.getD_eq_getElem _ _ (by omega)]
    exact hmem _ (List.getElem_mem _)
  · intro i hi
    have h1 : i < w.length := by omega
    calc w.getD i 0 = w.reverse.getD i 0 := by rw [hrev]
    _ = w.getD (w.length - 1 - i) 0 := getD_reverse w i h1
    _ = w.getD (n - 1 - i) 0 := by rw [hlen]

/-- Witness for C6 at `n = 3`, `tw = 1`, `dt = 1` (`ww = 1`). -/
theorem C6_taper_shape_witness :
    (0 : ℚ) < 1 ∧ (0 : ℚ) ≤ 1 ∧ (1 : ℕ) = (⌈(1 : ℚ) / 1⌉).toNat ∧
      2 * 1 < 3 ∧
      (∃ w, time_window_cyclicize 3 1 = some w ∧ w.length = 3 ∧
        (∀ i, i < 3 → 0 ≤ w.getD i 0 ∧ w.getD i 0 ≤ 1) ∧
        (∀ i, i < 3 → w.getD i 0 = w.getD (3 - 1 - i) 0)) :=
  ⟨by norm_num, by norm_num, by norm_num, by norm_num,
    C6_taper_shape 3 1 1 1 (by norm_num) (by norm_num) (by norm_num)
      (by norm_num)⟩

/- ----------------------------------------------------------------------
Edge Trimmer (`Signal.time_mask_rippleless`, lines 898-936).

    ww = int(math.ceil(td/dt))
    mask = (indices >= ww) & (indices < n - ww)
    x_rippleless = x[mask]
    <create dataset workup/time/mask/rippleless>        -- always stored
    <create dataset workup/time/x_rippleless>           -- always stored
    attrs: 'initial': x_rippleless[0],
           'step'   : x_rippleless[1]-x_rippleless[0]   -- IndexError when
                                                        -- fewer than 2 kept

Both datasets are created before the attribute dictionary indexes
`x_rippleless`, so when the mask keeps fewer than two points the stage
raises IndexError only *after* storing the mask and the trimmed axis.
---------------------------------------------------------------------- -/

/-- The three observable effects of one `time_mask_rippleless` call: the
stored mask, the stored trimmed axis, and the error (if any) raised while
building the axis attributes. -/
structure RipplelessOutcome where
  mask : Option (List Bool)
  x_rippleless : Option (List ℚ)
  error : Option String

/-- The trim mask `(indices >= ww) & (indices < n - ww)`. -/
def ripplelessMask (n ww : ℕ) : List Bool :=
(List.range n).map (fun i => decide (ww ≤ i) && decide (i < n - ww))

/-- numpy boolean-mask selection `x[mask]`. -/
def boolMask (x : List ℚ) (m : List Bool) : List ℚ :=
((x.zip m).filter (fun p => p.2)).map (fun p => p.1)

/-- `Signal.time_mask_rippleless`: both datasets are stored
unconditionally; the IndexError from `x_rippleless[0]`/`x_rippleless[1]`
in the attribute dictionary fires afterwards when fewer than two points
survive the trim. -/
def time_mask_rippleless (x : List ℚ) (ww : ℕ) : RipplelessOutcome :=
if 2 ≤ (boolMask x (ripplelessMask x.length ww)).length then
  ⟨some (ripplelessMask x.length ww),
    some (boolMask x (ripplelessMask x.length ww)), none⟩
else
  ⟨some (ripplelessMask x.length ww),
    some (boolMask x (ripplelessMask x.length ww)), some "IndexError"⟩

/-- C8 counterexample: with `x = [0, 1]` and `ww = 1` (so
`2*ww >= n_axis`), the Edge Trimmer raises IndexError but has already
stored both the all-false trim mask and the empty trimmed time axis —
the accumulated output set is not left unchanged. -/
theorem C8_partial_output_cex :
    2 * 1 ≥ ([0, 1] : List ℚ).length ∧
    (time_mask_rippleless [0, 1] 1).error = some "IndexError" ∧
    (time_mask_rippleless [0, 1] 1).mask ≠ none ∧
    (time_mask_rippleless [0, 1] 1).x_rippleless ≠ none := by
  have hout : time_mask_rippleless [0, 1] 1 =
      ⟨some [false, false], some [], some "IndexError"⟩ := by rfl
  refine ⟨by norm_num, ?_, ?_, ?_⟩ <;> rw [hout] <;> simp

lemma ripplelessMask_all_false (n ww : ℕ) (h : n ≤ 2 * ww) :
    ripplelessMask n ww = List.replicate n false := by
  apply List.ext_getElem
  · simp [ripplelessMask]
  · intro i h1 h2
    simp only [ripplelessMask, List.getElem_map, List.getElem_range,
      List.getElem_replicate]
    have hi : i < n := by simpa [ripplelessMask] using h1
    by_cases hwi : ww ≤ i
    · have hno : ¬ (i < n - ww) := by omega
      simp [hno]
    · simp [hwi]

lemma boolMask_replicate_false (x : List ℚ) :
    boolMask x (List.replicate x.length false) = [] := by
  unfold boolMask
  rw [List.filter_eq_nil_iff.mpr ?_]
  · rfl
  · intro p hp
    have hsnd := (List.of_mem_zip hp).2
    rw [List.eq_of_mem_replicate hsnd]
    simp

/-- C8 (amended: when `2*ww >= n_axis` the Edge Trimmer does fail with an
IndexError, but only after storing the all-false trim mask and the empty
trimmed time axis; the accumulated output set is *not* left unchanged). -/
theorem C8_rippleless_partial_store (x : List ℚ) (ww : ℕ)
    (h : x.length ≤ 2 * ww) :
    (time_mask_rippleless x ww).error = some "IndexError" ∧
    (time_mask_rippleless x ww).mask =
      some (List.replicate x.length false) ∧
    (time_mask_rippleless x ww).x_rippleless = some [] := by
  have hmask : ripplelessMask x.length ww = List.replicate x.length false :=
    ripplelessMask_all_false x.length ww h
  have hxr : boolMask x (ripplelessMask x.length ww) = [] := by
    rw [hmask]
    exact boolMask_replicate_false x
  unfold time_mask_rippleless
  rw [hxr, hmask, if_neg (by simp)]
  exact ⟨rfl, rfl, rfl⟩

/-- Witness for (amended) C8 at `x = [0, 1]`, `ww = 1`. -/
theorem C8_rippleless_partial_store_witness :
    ([0, 1] : List ℚ).length ≤ 2 * 1 ∧
    ((time_mask_rippleless [0, 1] 1).error = some "IndexError" ∧
      (time_mask_rippleless [0, 1] 1).mask =
        some (List.replicate ([0, 1] : List ℚ).length false) ∧
      (time_mask_rippleless [0, 1] 1).x_rippleless = some []) :=
  ⟨by norm_num, C8_rippleless_partial_store [0, 1] 1 (by norm_num)⟩

/- ----------------------------------------------------------------------
Frequency-axis storage (`Signal.fft`, lines 649-665).

    if psd: freq = freq[freq >= 0]
    dset = create_dataset('workup/freq/freq', data=freq/1E3)   -- kHz
    attrs: 'unit': 'kHz', 'initial': freq[0], 'step': freq[1]-freq[0]  -- Hz
---------------------------------------------------------------------- -/

/-- The frequency axis (in Hz) at dataset-creation time: the shifted
`fftfreq` array, single-sided first when `psd` is set. -/
def fftFreqAxisHz (m : ℕ) (dt : ℚ) (psd : Bool) : List ℚ :=
if psd then (fftshiftList (fftfreqList m dt)).filter (fun f => decide (0 ≤ f))
else fftshiftList (fftfreqList m dt)

/-- The stored dataset `workup/freq/freq = freq/1E3` (kHz). -/
def fftFreqStored (m : ℕ) (dt : ℚ) (psd : Bool) : List ℚ :=
(fftFreqAxisHz m dt psd).map (fun f => f / 1000)

/-- The stored attribute `'initial': freq[0]` (Hz, undivided). -/
def fftFreqInitialAttr (m : ℕ) (dt : ℚ) (psd : Bool) : ℚ :=
(fftFreqAxisHz m dt psd).getD 0 0

/-- The stored attribute `'step': freq[1]-freq[0]` (Hz, undivided). -/
def fftFreqStepAttr (m : ℕ) (dt : ℚ) (psd : Bool) : ℚ :=
(fftFreqAxisHz m dt psd).getD 1 0 - (fftFreqAxisHz m dt psd).getD 0 0

/-- C9: the stored frequency dataset holds the Hz values divided by 1000,
while its `initial` and `step` attributes hold undivided Hz values, so each
attribute is 1000 times the corresponding quantity of the dataset it
describes. -/
theorem C9_freq_attrs_1000x (m : ℕ) (dt : ℚ) (psd : Bool)
    (h : 2 ≤ (fftFreqAxisHz m dt psd).length) :
    fftFreqInitialAttr m dt psd = 1000 * (fftFreqStored m dt psd).getD 0 0 ∧
    fftFreqStepAttr m dt psd =
      1000 * ((fftFreqStored m dt psd).getD 1 0 -
        (fftFreqStored m dt psd).getD 0 0) := by
  have h0 : 0 < (fftFreqAxisHz m dt psd).length := by omega
  have h1 : 1 < (fftFreqAxisHz m dt psd).length := by omega
  have hs0 : (fftFreqStored m dt psd).getD 0 0 =
      (fftFreqAxisHz m dt psd).getD 0 0 / 1000 := by
    unfold fftFreqStored
    rw [List.getD_eq_getElem _ _ (by simpa using h0),
      List.getElem_map, List.getD_eq_getElem _ _ h0]
  have hs1 : (fftFreqStored m dt psd).getD 1 0 =
      (fftFreqAxisHz m dt psd).getD 1 0 / 1000 := by
    unfold fftFreqStored
    rw [List.getD_eq_getElem _ _ (by simpa using h1),
      List.getElem_map, List.getD_eq_getElem _ _ h1]
  constructor
  · rw [hs0]
    unfold fftFreqInitialAttr
    ring
  · rw [hs0, hs1]
    unfold fftFreqStepAttr
    ring

/-- Witness for C9 at `m = 4`, `dt = 1`, `psd = false`. -/
theorem C9_freq_attrs_1000x_witness :
    2 ≤ (fftFreqAxisHz 4 1 false).length ∧
    (fftFreqInitialAttr 4 1 false =
      1000 * (fftFreqStored 4 1 false).getD 0 0 ∧
    fftFreqStepAttr 4 1 false =
      1000 * ((fftFreqStored 4 1 false).getD 1 0 -
        (fftFreqStored 4 1 false).getD 0 0)) :=
  ⟨by norm_num [fftFreqAxisHz, fftshiftList, fftfreqList],
    C9_freq_attrs_1000x 4 1 false
      (by norm_num [fftFreqAxisHz, fftshiftList, fftfreqList])⟩

/- ----------------------------------------------------------------------
Chunking preamble of `Signal.fit_phase` (lines 1101-1148).

    n_per_chunk = int(round(dt_chunk_target/dt))
    n_tot_chunk = int(n/n_per_chunk)    -- ZeroDivisionError when
                                        -- n_per_chunk == 0, raised before
                                        -- any report or dataset is created

Python 3's `round` is banker's rounding (round-half-to-even), modelled
exactly on rationals.  A negative `n_per_chunk` later blows up in
`reshape` with a ValueError (negative dimensions); the successful branch
produces the per-chunk midpoint times and the closed-form-sum slopes.
---------------------------------------------------------------------- -/

/-- Python 3 `round` on a rational: round-half-to-even. -/
def pythonRound (q : ℚ) : ℤ :=
if q - ⌊q⌋ < 1/2 then ⌊q⌋
else if 1/2 < q - ⌊q⌋ then ⌊q⌋ + 1
else if ⌊q⌋ % 2 = 0 then ⌊q⌋ else ⌊q⌋ + 1

/-- `Signal.fit_phase` on phase trace `p` and time axis `x`: the output
pair is (chunk midpoint times `workup/fit/x`, best-fit slopes
`workup/fit/y`); the error branches model ZeroDivisionError (zero points
per chunk) and the reshape ValueError (negative points per chunk). -/
def fit_phase (p x : List ℚ) (dt tgt : ℚ) :
    Except String (List ℚ × List ℚ) :=
let npc := pythonRound (tgt / dt)
if npc = 0 then Except.error "ZeroDivisionError: division by zero"
else if npc < 0 then
  Except.error "ValueError: negative dimensions are not allowed"
else
  let m := npc.toNat
  let ntc := p.length / m
  Except.ok
    ((List.range ntc).map
      (fun c => (∑ k ∈ Finset.range m, x.getD (c * m + k) 0) / (m : ℚ)),
     (List.range ntc).map
      (fun c => chunkSlope dt (fun k => x.getD (c * m + k) 0)
        (fun k => p.getD (c * m + k) 0) m))

/-- C10: whenever `round(dt_chunk_target/dt) = 0`, `fit_phase` fails with
the division-by-zero error before any frequency-versus-time output is
produced. -/
theorem C10_zero_chunk_divzero (p x : List ℚ) (dt tgt : ℚ)
    (h : pythonRound (tgt / dt) = 0) :
    fit_phase p x dt tgt =
      Except.error "ZeroDivisionError: division by zero" := by
  simp [fit_phase, h]

/-- Witness for C10 at `dt = 1`, `dt_chunk_target = 1/2` (Python 3 rounds
`0.5` to `0`). -/
theorem C10_zero_chunk_divzero_witness :
    pythonRound ((1 / 2 : ℚ) / 1) = 0 ∧
    fit_phase [] [] 1 (1 / 2) =
      Except.error "ZeroDivisionError: division by zero" := by
  have h : pythonRound ((1 / 2 : ℚ) / 1) = 0 := by
    norm_num [pythonRound]
  exact ⟨h, C10_zero_chunk_divzero [] [] 1 (1 / 2) h⟩

end FreqDemod
